import Mathlib

/-!
# Verification of the ScriptRock/pdf text-extraction library

A shallow embedding of the parts of the library that the checked claims
are about: the 3x3 transformation matrices (internal/state/matrix.go and
the fast-path variants), the text and graphics state (internal/state),
the hex-string lexer (lex.go), the decrypter construction
(internal/decrypter/crypt.go), the widths table (font.go), the ToUnicode
CMap decoder (internal/encoding), the text builder (text/builder.go) and
the PostScript value stack (ps.go).

Modelling conventions:
* Go `float64` is modelled as `ℚ` (exact arithmetic; the claims are
  algebraic and do not depend on rounding).
* Go byte strings are modelled as `List Nat` with entries below 256.
* Go code that can panic (nil dereference, out-of-range index or slice)
  is modelled with `Option`/`Except`; `none`/a dedicated error means the
  Go original panics.
* Transcendental functions from Go's `math` package (`math.Exp`,
  `math.Log`) are taken as parameters, since only their call structure
  matters for the claims.
-/

namespace Pdf



/-- Go `type matrix [3][3]float64` (src/internal/state/matrix.go).
Field `mIJ` is row `I`, column `J`. -/
structure matrix where
  m00 : ℚ
  m01 : ℚ
  m02 : ℚ
  m10 : ℚ
  m11 : ℚ
  m12 : ℚ
  m20 : ℚ
  m21 : ℚ
  m22 : ℚ
deriving DecidableEq, Repr

/-- Go `identity()` (src/internal/state/matrix.go): the identity matrix. -/
def matrix.identity : matrix := ⟨1, 0, 0, 0, 1, 0, 0, 0, 1⟩

/-- Go `(*matrix).Mul` (src/internal/state/matrix.go): the full 3x3 product.
Entry (i,j) is accumulated by the loop as
`m[i][0]*n[0][j] + m[i][1]*n[1][j] + m[i][2]*n[2][j]`. -/
def matrix.Mul (m n : matrix) : matrix where
  m00 := m.m00 * n.m00 + m.m01 * n.m10 + m.m02 * n.m20
  m01 := m.m00 * n.m01 + m.m01 * n.m11 + m.m02 * n.m21
  m02 := m.m00 * n.m02 + m.m01 * n.m12 + m.m02 * n.m22
  m10 := m.m10 * n.m00 + m.m11 * n.m10 + m.m12 * n.m20
  m11 := m.m10 * n.m01 + m.m11 * n.m11 + m.m12 * n.m21
  m12 := m.m10 * n.m02 + m.m11 * n.m12 + m.m12 * n.m22
  m20 := m.m20 * n.m00 + m.m21 * n.m10 + m.m22 * n.m20
  m21 := m.m20 * n.m01 + m.m21 * n.m11 + m.m22 * n.m21
  m22 := m.m20 * n.m02 + m.m21 * n.m12 + m.m22 * n.m22

/-- Go `(*matrix).rotation()` (src/unnamed/part_004, rotation variant):
whether either off-diagonal rotation entry is nonzero. -/
def matrix.rotation (m : matrix) : Bool :=
  decide (m.m01 ≠ 0) || decide (m.m10 ≠ 0)

/-- Go `(*matrix).Mul` of the rotation-fast-path variant
(src/unnamed/part_004 lines 16-35).  When neither factor rotates it takes
the short-circuit branch; otherwise it uses the written-out product whose
third column is fixed to (0,0,1). -/
def matrix.MulRot (m n : matrix) : matrix :=
  if !m.rotation && !n.rotation then
    { m00 := m.m00 * n.m00, m01 := 0, m02 := 0
      m10 := 0, m11 := m.m11 * n.m11, m12 := 0
      m20 := m.m20 * n.m00 + n.m20, m21 := m.m21 * n.m11 + n.m21, m22 := 1 }
  else
    { m00 := m.m00 * n.m00 + m.m01 * n.m10, m01 := m.m00 * n.m01 + m.m01 * n.m11, m02 := 0
      m10 := m.m10 * n.m00 + m.m11 * n.m10, m11 := m.m10 * n.m01 + m.m11 * n.m11, m12 := 0
      m20 := m.m20 * n.m00 + m.m21 * n.m10 + n.m20
      m21 := m.m20 * n.m01 + m.m21 * n.m11 + n.m21
      m22 := 1 }

/-- Go `(*matrix).sparse()` (src/unnamed/part_004, sparse variant). -/
def matrix.sparse (m : matrix) : Bool :=
  decide (m.m01 = 0) && decide (m.m02 = 0) &&
  decide (m.m10 = 0) && decide (m.m12 = 0) &&
  decide (m.m22 = 1)

/-- Go `(*matrix).Mul` of the sparse-fast-path variant
(src/unnamed/part_004 lines 48-74).  When both factors are sparse it takes
the short-circuit branch; otherwise it runs the same full triple loop as
`matrix.Mul`. -/
def matrix.MulSparse (m n : matrix) : matrix :=
  if m.sparse && n.sparse then
    { m00 := m.m00 * n.m00, m01 := 0, m02 := 0
      m10 := 0, m11 := m.m11 * n.m11, m12 := 0
      m20 := m.m20 * n.m00 + n.m20, m21 := m.m21 * n.m11 + n.m21, m22 := 1 }
  else
    matrix.Mul m n

/-- The spec's Matrix data-model invariant: "3×3 with affine form
(third column always [0,0,1])". -/
def matrix.affine (m : matrix) : Prop :=
  m.m02 = 0 ∧ m.m12 = 0 ∧ m.m22 = 1

instance (m : matrix) : Decidable m.affine := by
  unfold matrix.affine
  infer_instance

/-! ## Text state (src/internal/state/text.go)

Go's `state.Font` is an interface; the state claims never inspect font
values, so the text state is parameterized by an abstract font type `F`
and font operations are passed in a `FontOps` record.  `math.Exp` and
`math.Log` are passed as the parameters `mexp`/`mlog`. -/

/-- Go `state.Text` (src/internal/state/text.go).  `tm`/`tlm` are nilable
matrix pointers, `tf` a nilable font interface value. -/
structure Text (F : Type) where
  tc : ℚ
  tw : ℚ
  logTh : ℚ
  tl : ℚ
  tf : Option F
  tfs : ℚ
  tm : Option matrix
  tlm : Option matrix
deriving DecidableEq, Repr

/-- The two methods of Go's `state.Font` interface, for an abstract font
type `F`: `Name()` and `Decode(raw) (string, float64)`. -/
structure FontOps (F : Type) where
  name : F → String
  decode : F → List Nat → List Char × ℚ

/-- Go `Text.Tc`: set character spacing. -/
def Text.Tc {F : Type} (v : ℚ) (t : Text F) : Text F := { t with tc := v }

/-- Go `Text.Tw`: set word spacing. -/
def Text.Tw {F : Type} (v : ℚ) (t : Text F) : Text F := { t with tw := v }

/-- Go `Text.Tz`: `t.logTh = math.Log(v / 100)`. -/
def Text.Tz {F : Type} (mlog : ℚ → ℚ) (v : ℚ) (t : Text F) : Text F :=
  { t with logTh := mlog (v / 100) }

/-- Go `Text.TL`: set leading. -/
def Text.TL {F : Type} (v : ℚ) (t : Text F) : Text F := { t with tl := v }

/-- Go `Text.Tf`: set font and size. -/
def Text.Tf {F : Type} (font : F) (size : ℚ) (t : Text F) : Text F :=
  { t with tf := some font, tfs := size }

/-- Go `Text.BT`: `t.tlm = identity(); t.tm = t.tlm`. -/
def Text.BT {F : Type} (t : Text F) : Text F :=
  { t with tlm := some matrix.identity, tm := some matrix.identity }

/-- Go `Text.ET`: both matrices become nil. -/
def Text.ET {F : Type} (t : Text F) : Text F :=
  { t with tlm := none, tm := none }

/-- Go `Text.Td`: `t.tlm = translate(tx,ty).Mul(t.tlm); t.tm = t.tlm`.
`none` models the nil-pointer panic inside `Mul` when `tlm` is nil. -/
def Text.Td {F : Type} (tx ty : ℚ) (t : Text F) : Option (Text F) :=
  match t.tlm with
  | none => none
  | some l =>
    let tlm := (matrix.mk 1 0 0 0 1 0 tx ty 1).Mul l
    some { t with tlm := some tlm, tm := some tlm }

/-- Go `Text.TD`: `t.TL(-ty); t.Td(tx, ty)`. -/
def Text.TD {F : Type} (tx ty : ℚ) (t : Text F) : Option (Text F) :=
  Text.Td tx ty (Text.TL (-ty) t)

/-- Go `Text.Tm`: both matrices become the given matrix. -/
def Text.Tm {F : Type} (a b c d e f : ℚ) (t : Text F) : Text F :=
  let m : matrix := ⟨a, b, 0, c, d, 0, e, f, 1⟩
  { t with tlm := some m, tm := some m }

/-- Go `Text.Tstar`: `t.TD(0, -t.tl)`. -/
def Text.Tstar {F : Type} (t : Text F) : Option (Text F) :=
  Text.TD 0 (-t.tl) t

/-- Go `Text.displace`: update the text matrix (cursor), but not the text
line matrix, by left-multiplying a translation.  `none` models the
nil-pointer panic inside `Mul` when `tm` is nil. -/
def Text.displace {F : Type} (mexp : ℚ → ℚ) (v nc nw : ℚ) (t : Text F) : Option (Text F) :=
  match t.tm with
  | none => none
  | some m =>
    let tx := (v / 1000 * t.tfs + nc * t.tc + nw * t.tw) * mexp t.logTh
    some { t with tm := some ((matrix.mk 1 0 0 0 1 0 tx 0 1).Mul m) }

/-- Go `Text.TJDisplace`: `t.displace(-v, 0, 0)`. -/
def Text.TJDisplace {F : Type} (mexp : ℚ → ℚ) (v : ℚ) (t : Text F) : Option (Text F) :=
  Text.displace mexp (-v) 0 0 t

/-- Go `Text.trm`: the text rendering matrix
`[[tfs*exp(logTh),0,0],[0,tfs,0],[0,0,1]] * tm * ctm`.  `none` models the
nil-pointer panics when `tm` or `ctm` is nil. -/
def Text.trm {F : Type} (mexp : ℚ → ℚ) (ctm : Option matrix) (t : Text F) : Option matrix :=
  match t.tm, ctm with
  | some tm, some c =>
    some (((matrix.mk (t.tfs * mexp t.logTh) 0 0 0 t.tfs 0 0 0 1).Mul tm).Mul c)
  | _, _ => none

/-- Go `Text.textDims`: pre-display position, displacement, and
post-display width, per PDF_ISO_32000-2 9.4.4. -/
def Text.textDims {F : Type} (mexp : ℚ → ℚ) (ctm : Option matrix) (s : List Char) (w0 : ℚ)
    (t : Text F) : Option (Text F × ℚ × ℚ × ℚ × ℚ) := do
  let rm ← t.trm mexp ctm
  let nc : ℚ := ((s.filter (fun r => r ≠ ' ')).length : ℚ)
  let nw : ℚ := ((s.filter (fun r => r = ' ')).length : ℚ)
  let t' ← t.displace mexp w0 nc nw
  let rm' ← t'.trm mexp ctm
  pure (t', rm.m20, rm.m21, rm'.m20 - rm.m20, rm.m11)

/-- The arguments of a `Renderer.Render` call emitted by a glyph show. -/
structure RenderCall where
  x : ℚ
  y : ℚ
  w : ℚ
  h : ℚ
  font : String
  s : List Char
deriving DecidableEq, Repr

/-- Go `Text.Tj`: decode the raw bytes through the font, compute the text
dimensions (displacing `tm`), and emit one `Render` call.  `none` models
the nil-font and nil-matrix panics. -/
def Text.Tj {F : Type} (fo : FontOps F) (mexp : ℚ → ℚ) (ctm : Option matrix)
    (raw : List Nat) (t : Text F) : Option (Text F × RenderCall) := do
  let f ← t.tf
  let fn := fo.name f
  let sw := fo.decode f raw
  let (t', x, y, w, h) ← t.textDims mexp ctm sw.1 sw.2
  pure (t', ⟨x, y, w, h, fn, sw.1⟩)

/-! ## Graphics state (src/internal/state/graphics.go) -/

/-- Go `state.gState`: a nilable CTM plus the embedded text state. -/
structure gState (F : Type) where
  ctm : Option matrix
  text : Text F
deriving DecidableEq, Repr

/-- Go `state.Graphics`: the current `gState` (embedded field) plus the
stack of saved states. -/
structure Graphics (F : Type) where
  gs : gState F
  stack : List (gState F)
deriving DecidableEq, Repr

/-- The nil-CTM normalization snippet shared by Go `Graphics.Push` and
`Graphics.Tj`: `if g.gState.ctm == nil { g.gState.ctm = identity() }`. -/
def gState.normCtm {F : Type} (gs : gState F) : gState F :=
  match gs.ctm with
  | none => { gs with ctm := some matrix.identity }
  | some _ => gs

/-- Go `Graphics.Push`: normalize a nil CTM to the identity, then append a
copy of the whole current graphics state (text state included). -/
def Graphics.Push {F : Type} (G : Graphics F) : Graphics F :=
  { gs := G.gs.normCtm, stack := G.stack ++ [G.gs.normCtm] }

/-- Go `Graphics.Pop`: restore the last saved state.  `none` models the
index-out-of-range panic on an empty stack. -/
def Graphics.Pop {F : Type} (G : Graphics F) : Option (Graphics F) :=
  match G.stack.getLast? with
  | none => none
  | some gs => some { gs := gs, stack := G.stack.dropLast }

/-- Go `Graphics.CM`: premultiply the CTM (or install the matrix when the
CTM is still nil). -/
def Graphics.CM {F : Type} (a b c d e f : ℚ) (G : Graphics F) : Graphics F :=
  let m : matrix := ⟨a, b, 0, c, d, 0, e, f, 1⟩
  match G.gs.ctm with
  | none => { G with gs := { G.gs with ctm := some m } }
  | some c0 => { G with gs := { G.gs with ctm := some (m.Mul c0) } }

/-- Go `Graphics.Tj`: normalize a nil CTM to the identity, then run the
text-state `Tj` against it. -/
def Graphics.Tj {F : Type} (fo : FontOps F) (mexp : ℚ → ℚ) (raw : List Nat)
    (G : Graphics F) : Option (Graphics F × RenderCall) :=
  match Text.Tj fo mexp G.gs.normCtm.ctm raw G.gs.normCtm.text with
  | none => none
  | some (t', rc) => some ({ gs := { G.gs.normCtm with text := t' }, stack := G.stack }, rc)

/-- The content-stream operators that act only on the current graphics
state (the `cm` operator and the text-state operators of Table 103/106). -/
inductive Op (F : Type) where
  | cm (a b c d e f : ℚ)
  | tc (v : ℚ)
  | tw (v : ℚ)
  | tz (v : ℚ)
  | tl (v : ℚ)
  | tf (font : F) (size : ℚ)
  | bt
  | et
  | td (tx ty : ℚ)
  | tD (tx ty : ℚ)
  | tmOp (a b c d e f : ℚ)
  | tstar
  | tj (raw : List Nat)
  | tjDisp (v : ℚ)

/-- Dispatch one operator against the graphics state, exactly as the
corresponding Go methods do (text-state methods act on the embedded text
state; `cm` and `Tj` on the graphics level). -/
def applyOp {F : Type} (fo : FontOps F) (mexp mlog : ℚ → ℚ) (G : Graphics F) :
    Op F → Option (Graphics F)
  | .cm a b c d e f => some (Graphics.CM a b c d e f G)
  | .tc v => some { G with gs := { G.gs with text := Text.Tc v G.gs.text } }
  | .tw v => some { G with gs := { G.gs with text := Text.Tw v G.gs.text } }
  | .tz v => some { G with gs := { G.gs with text := Text.Tz mlog v G.gs.text } }
  | .tl v => some { G with gs := { G.gs with text := Text.TL v G.gs.text } }
  | .tf font size => some { G with gs := { G.gs with text := Text.Tf font size G.gs.text } }
  | .bt => some { G with gs := { G.gs with text := Text.BT G.gs.text } }
  | .et => some { G with gs := { G.gs with text := Text.ET G.gs.text } }
  | .td tx ty => (Text.Td tx ty G.gs.text).map (fun t => { G with gs := { G.gs with text := t } })
  | .tD tx ty => (Text.TD tx ty G.gs.text).map (fun t => { G with gs := { G.gs with text := t } })
  | .tmOp a b c d e f =>
    some { G with gs := { G.gs with text := Text.Tm a b c d e f G.gs.text } }
  | .tstar => (Text.Tstar G.gs.text).map (fun t => { G with gs := { G.gs with text := t } })
  | .tj raw => (Graphics.Tj fo mexp raw G).map Prod.fst
  | .tjDisp v =>
    (Text.TJDisplace mexp v G.gs.text).map (fun t => { G with gs := { G.gs with text := t } })

/-- Run a sequence of operators, stopping at the first panic. -/
def applyOps {F : Type} (fo : FontOps F) (mexp mlog : ℚ → ℚ) :
    List (Op F) → Graphics F → Option (Graphics F)
  | [], G => some G
  | op :: rest, G =>
    match applyOp fo mexp mlog G op with
    | none => none
    | some G1 => applyOps fo mexp mlog rest G1

/-! ## Glyph widths (src/font.go) -/

/-- Go `span` (src/font.go): a code range with either a fixed width or a
per-code `linear` width table. -/
structure span where
  first : Int
  last : Int
  fixed : ℚ
  linear : List ℚ
deriving DecidableEq, Repr

/-- Go `widths` (src/font.go): a default width plus a list of spans. -/
structure widths where
  defaultW : ℚ
  spans : List span
deriving DecidableEq, Repr

/-- Go `widths.CodeWidth` (src/font.go lines 226-238): the first span
containing `code` decides; a nonempty `linear` is indexed at
`code - first`, else the span's `fixed` width is used; with no containing
span the default width.  `none` models the index-out-of-range panic when
`code - first` falls outside `linear`. -/
def widths.CodeWidth (w : widths) (code : Int) : Option ℚ :=
  match w.spans.find? (fun s => decide (code ≥ s.first) && decide (code ≤ s.last)) with
  | some s =>
    if s.linear.length > 0 then s.linear.get? (code - s.first).toNat
    else some s.fixed
  | none => some w.defaultW

/-! ## The PostScript value stack (src/ps.go)

The reader back-pointer `r *Reader` inside Go's `value` plays no role in
stack behaviour and is omitted; the object pointer and the dynamically
typed `data any` field are kept. -/

/-- Go `types.Objptr`. -/
structure Objptr where
  id : Nat
  gen : Nat
deriving DecidableEq, Repr

/-- The kinds of data a Go `value.data any` field can hold (src/unnamed/
part_007).  Payloads of the container kinds are irrelevant to the stack
claims and are kept abstract as sizes/ids. -/
inductive valueData where
  | vbool (b : Bool)
  | vint (i : Int)
  | vreal (q : ℚ)
  | vstr (s : List Nat)
  | vname (n : String)
  | vdict (entries : List (String × Int))
  | varray (len : Nat)
  | vstream (ptr : Objptr) (offset : Int)
deriving DecidableEq, Repr

/-- Go `value` (src/unnamed/part_007): `data = none` is a nil interface,
i.e. a PDF null.  The zero value `value{}` has `data = none`. -/
structure value where
  ptr : Objptr
  data : Option valueData
deriving DecidableEq, Repr

/-- The zero Go `value{}`: a PDF null. -/
def value.zero : value := { ptr := ⟨0, 0⟩, data := none }

/-- Go `value.IsNull`: `v.data == nil`. -/
def value.IsNull (v : value) : Bool := v.data.isNone

/-- Go `valueKind` (src/unnamed/part_007). -/
inductive valueKind where
  | nullKind
  | boolKind
  | integerKind
  | realKind
  | stringKind
  | nameKind
  | dictKind
  | arrayKind
  | streamKind
deriving DecidableEq, Repr

/-- Go `value.Kind`: type-switch on the data, defaulting to null. -/
def value.Kind (v : value) : valueKind :=
  match v.data with
  | none => .nullKind
  | some (.vbool _) => .boolKind
  | some (.vint _) => .integerKind
  | some (.vreal _) => .realKind
  | some (.vstr _) => .stringKind
  | some (.vname _) => .nameKind
  | some (.vdict _) => .dictKind
  | some (.varray _) => .arrayKind
  | some (.vstream _ _) => .streamKind

/-- Go `stack` (src/ps.go): a slice of values, the top at the end.  (The
Go field is also called `stack`; Lean needs a distinct name, `vals`.) -/
structure stack where
  vals : List value
deriving DecidableEq, Repr

/-- Go `stack.Len`. -/
def stack.Len (stk : stack) : Nat := stk.vals.length

/-- Go `stack.Push`: append at the top. -/
def stack.Push (stk : stack) (v : value) : stack :=
  { vals := stk.vals ++ [v] }

/-- Go `stack.Pop` (src/ps.go lines 26-35): on an empty stack return the
zero value (a PDF null) and leave the stack as it is; otherwise remove
and return the top. -/
def stack.Pop (stk : stack) : value × stack :=
  match stk.vals.getLast? with
  | none => (value.zero, stk)
  | some v => (v, { vals := stk.vals.dropLast })

/-! ## The text builder (src/text/builder.go, src/text/text.go) -/

/-- Go `text.Part` (src/text/text.go). -/
structure Part where
  Size : ℚ
  Weight : Int
  Content : List Char
deriving DecidableEq, Repr

/-- Go `text.Builder` (src/text/builder.go): the y-location of the last
text rendered and the accumulated parts. -/
structure Builder where
  y : ℚ
  text : List Part
deriving DecidableEq, Repr

/-- Go `unicode.IsSpace` on the characters that can appear here (the
Latin-1 range of Unicode White_Space; the table continues above U+00FF
with the Unicode space code points, which none of the claims touch). -/
def goIsSpace (c : Char) : Bool :=
  c = ' ' || c = '\t' || c = '\n' || c.val = 11 || c.val = 12 || c = '\r' ||
  c.val = 0x85 || c.val = 0xA0

/-- Go `len(strings.TrimSpace(content)) == 0`: every rune is white space. -/
def isWhitespaceOnly (content : List Char) : Bool := content.all goIsSpace

/-- Go `Builder.add` (src/text/builder.go lines 43-56): merge into the
last part when the content is pure whitespace or size and weight match;
otherwise append a new part. -/
def Builder.add (b : Builder) (size : ℚ) (weight : Int) (content : List Char) : Builder :=
  match b.text.getLast? with
  | some lastPiece =>
    if isWhitespaceOnly content ||
        (decide (lastPiece.Size = size) && decide (lastPiece.Weight = weight)) then
      { b with
        text := b.text.dropLast ++ [{ lastPiece with Content := lastPiece.Content ++ content }] }
    else
      { b with text := b.text ++ [⟨size, weight, content⟩] }
  | none => { b with text := b.text ++ [⟨size, weight, content⟩] }

/-- Go `Builder.Render` (src/text/builder.go lines 19-41): ignore empty
content; prepend the paragraph or line separator according to the
y-movement; record the new y; weight 1 iff the font name ends in
"-Bold"; then `add`. -/
def Builder.Render (b : Builder) (x y w h : ℚ) (font content : List Char) : Builder :=
  if content = [] then b
  else
    let content :=
      if b.text = [] then content
      else if y > b.y ∨ y < b.y - 2 * h then '\n' :: '\n' :: content
      else if y < b.y then '\n' :: content
      else content
    let weight : Int := if (['-', 'B', 'o', 'l', 'd'] : List Char).isSuffixOf font then 1 else 0
    Builder.add { b with y := y } h weight content

/-- The concatenated content of all accumulated parts. -/
def Builder.joined (b : Builder) : List Char := (b.text.map Part.Content).join

/-- The zero value of the Go `Text` struct: all spacings zero, nil font,
nil matrices. -/
def tEx0 : Text Unit :=
  { tc := 0, tw := 0, logTh := 0, tl := 0, tf := none, tfs := 0,
    tm := none, tlm := none }

/-- A concrete text state inside a BT/ET block (both matrices set). -/
def tExM : Text Unit :=
  { tc := 0, tw := 0, logTh := 0, tl := 0, tf := some (), tfs := 2,
    tm := some matrix.identity, tlm := some matrix.identity }

/-- Trivial font operations over the unit font type. -/
def foU : FontOps Unit :=
  { name := fun _ => "F", decode := fun _ _ => ([], 0) }

/-- The identity in place of `math.Exp`/`math.Log` for concrete runs. -/
def idQ : ℚ → ℚ := fun q => q

/-! ## The hex-string lexer (src/lex.go) -/

/-- Go `isSpace` (src/lex.go): the PDF whitespace bytes
NUL, TAB, LF, FF, CR, SPACE. -/
def isSpaceB (b : Nat) : Bool :=
  b = 0 || b = 9 || b = 10 || b = 12 || b = 13 || b = 32

/-- Go `unhex` (src/lex.go lines 204-214): hex-digit value, or -1. -/
def unhex (b : Nat) : Int :=
  if 48 ≤ b ∧ b ≤ 57 then (b : Int) - 48
  else if 97 ≤ b ∧ b ≤ 102 then (b : Int) - 97 + 10
  else if 65 ≤ b ∧ b ≤ 70 then (b : Int) - 65 + 10
  else -1

/-- Go `unhex(c)<<4 | unhex(c2)`.  On the values `unhex` produces (-1 or
a nibble 0..15) the two's-complement expression has the closed form used
here: `x | -1 = -1`, and otherwise `(a<<4) | b = 16*a + b` because the low
four bits of `a<<4` are clear (this also covers `a = -1`, where
`-16 | b = b - 16`).  The closed form is used so the definition evaluates
in the kernel; `hexPair_eq_lor` checks it against `Int.lor` on the
nonnegative quadrant. -/
def hexPair (a b : Int) : Int :=
  if b = -1 then -1 else 16 * a + b

/-- Dropping a satisfied run never lengthens a list (termination helper). -/
theorem length_dropWhile_le'' {α : Type} (p : α → Bool) (l : List α) :
    (l.dropWhile p).length ≤ l.length := by
  induction l with
  | nil => simp
  | cons a t ih => by_cases h : p a <;> simp [List.dropWhile, h] <;> omega

/-- Go `buffer.readHexString` (src/lex.go lines 177-202) on the remaining
input bytes, returning the string's bytes and the unread input after the
closing `>`.  Whitespace is skipped before each nibble; a `>` is
recognized only in first-nibble position; `Except.error` models the
`errorf` panic on a malformed pair.  (At the true end of input the Go
loop spins forever on the synthetic newlines `readByte` returns; running
out of bytes is modelled as the distinct error "eof".) -/
def readHexString (input : List Nat) : Except String (List Nat × List Nat) :=
  match h1 : input.dropWhile isSpaceB with
  | [] => .error "eof"
  | c :: rest =>
    if c = 62 then .ok ([], rest)
    else
      match h2 : rest.dropWhile isSpaceB with
      | [] => .error "eof"
      | c2 :: rest2 =>
        let x := hexPair (unhex c) (unhex c2)
        if x < 0 then .error "malformed hex string"
        else
          match readHexString rest2 with
          | .error e => .error e
          | .ok (tl, restF) => .ok (x.toNat :: tl, restF)
  termination_by input.length
  decreasing_by
    have e1 : (input.dropWhile isSpaceB).length ≤ input.length :=
      length_dropWhile_le'' isSpaceB input
    have e2 : (rest.dropWhile isSpaceB).length ≤ rest.length :=
      length_dropWhile_le'' isSpaceB rest
    rw [h1] at e1
    rw [h2] at e2
    simp at e1 e2
    omega

/-- Concrete widths for the C7 witness: default 100, one linear span
covering 65..66 with widths [600, 250]. -/
def wEx : widths := { defaultW := 100, spans := [⟨65, 66, 0, [600, 250]⟩] }

/-! ## The ToUnicode CMap decoder (src/unnamed/part_006, part_005)

Byte strings are `List Nat`; decoded runes are also `List Nat` (code
points).  The NFKC normalization applied by `UTF16Decode` lives in the
external library `golang.org/x/text/unicode/norm` and is passed in as the
parameter `nfkc`. -/

/-- Go string comparison `s <= t` on byte strings (lexicographic, a
proper prefix is smaller). -/
def strLE : List Nat → List Nat → Bool
  | [], _ => true
  | _ :: _, [] => false
  | a :: s, b :: t => if a < b then true else if b < a then false else strLE s t

/-- Go `encoding.ByteRange`: an inclusive codespace range. -/
structure ByteRange where
  lo : List Nat
  hi : List Nat
deriving DecidableEq, Repr

/-- Go `encoding.BFChar`: a single-code mapping. -/
structure BFChar where
  orig : List Nat
  repl : List Nat
deriving DecidableEq, Repr

/-- Go `encoding.BFRange`: a code range mapped to a scaled string `dstS`
or an array of strings `dstA`. -/
structure BFRange where
  lo : List Nat
  hi : List Nat
  dstS : List Nat
  dstA : List (List Nat)
deriving DecidableEq, Repr

/-- Go `encoding.CMap` (src/unnamed/part_006).  `Space` is the 4-element
codespace table indexed by the code byte-length minus one. -/
structure CMap where
  Widths : widths
  Space : List (List ByteRange)
  BFRanges : List BFRange
  BFChars : List BFChar

/-- Modelled from the spec: the constant `NoRune` of package `encoding`
(its definition is not among the provided sources).  The spec calls it
the replacement rune `�` "(or the configured no-match rune)". -/
def NoRune : Nat := 0xFFFD

/-- Big-endian byte pairing of Go `UTF16Decode`:
`uint16(s[i])<<8 | uint16(s[i+1])` is `a*256 + b` since `b < 256`.
`none` models the index-out-of-range panic on an odd-length input. -/
def pairBE : List Nat → Option (List Nat)
  | [] => some []
  | [_] => none
  | a :: b :: rest => (pairBE rest).map (fun u => (a * 256 + b) :: u)

/-- Go `unicode/utf16.Decode`: surrogate pairs combine into one rune;
unpaired surrogates become U+FFFD. -/
def utf16DecodeUnits : List Nat → List Nat
  | [] => []
  | [u] => if u < 0xD800 ∨ 0xE000 ≤ u then [u] else [0xFFFD]
  | u :: u2 :: rest =>
    if u < 0xD800 ∨ 0xE000 ≤ u then u :: utf16DecodeUnits (u2 :: rest)
    else if u < 0xDC00 then
      if 0xDC00 ≤ u2 ∧ u2 < 0xE000 then
        (0x10000 + (u - 0xD800) * 0x400 + (u2 - 0xDC00)) :: utf16DecodeUnits rest
      else 0xFFFD :: utf16DecodeUnits (u2 :: rest)
    else 0xFFFD :: utf16DecodeUnits (u2 :: rest)

/-- Go `encoding.UTF16Decode` (src/unnamed/part_005): pair the bytes
big-endian (panicking on odd length, modelled as `none`), decode the
UTF-16 units, and apply the external NFKC normalization `nfkc`. -/
def UTF16Decode (nfkc : List Nat → List Nat) (s : List Nat) : Option (List Nat) :=
  (pairBE s).map (fun u => nfkc (utf16DecodeUnits u))

/-- The big-endian accumulation `code = (code << 8) | int(raw[n-1])` of
`CMap.Decode`: each byte is below 256, so this is `code*256 + byte`. -/
def beval (text : List Nat) : Int :=
  text.foldl (fun acc b => acc * 256 + (b : Int)) 0

/-- Go byte subtraction `text[last] - lo[last]` (wraps modulo 256). -/
def byteSub (a b : Nat) : Nat := (256 + a - b) % 256

/-- Go's in-place bump of the final byte of `DstS`:
`b[len(b)-1] += text[last] - lo[last]` (byte arithmetic, wraps). -/
def bumpLast (s : List Nat) (d : Nat) : List Nat :=
  s.dropLast ++ [(s.getLastD 0 + d) % 256]

/-- The codespace search of `CMap.Decode`: the first length n of 1..4
with n ≤ len(raw) whose bucket holds a range enclosing raw[:n]
byte-wise.  (The Go loop breaks at the first n exceeding len(raw); no
such n can be returned here either, because the length guard fails for
it and for every later n.) -/
def findSpaceLen (m : CMap) (raw : List Nat) : Option Nat :=
  [1, 2, 3, 4].find? (fun n =>
    decide (n ≤ raw.length) &&
    (m.Space.getD (n - 1) []).any (fun sp =>
      strLE sp.lo (raw.take n) && strLE (raw.take n) sp.hi))

/-- A length returned by `findSpaceLen` is between 1 and `len raw`. -/
theorem findSpaceLen_bounds (m : CMap) (raw : List Nat) (n : Nat)
    (h : findSpaceLen m raw = some n) : 1 ≤ n ∧ n ≤ raw.length := by
  have hmem := List.mem_of_find?_eq_some h
  have hp := List.find?_some h
  simp only [Bool.and_eq_true, decide_eq_true_eq] at hp
  constructor
  · simp only [List.mem_cons, List.not_mem_nil, or_false] at hmem
    rcases hmem with h1 | h1 | h1 | h1 <;> omega
  · exact hp.1

/-- The bfchar / bfrange / no-match cascade of `CMap.Decode` for one
consumed code `text` (the matched `raw[:n]`): the first bfchar with equal
length and bytes wins; otherwise the first bfrange of the same length
containing `text` emits its scaled `DstS` or indexed `DstA` entry;
otherwise (also when the matched bfrange has neither) the code becomes
`NoRune` with NO width contribution.  Returns the emitted runes and the
width added for this code; `none` models the panics (odd-length
replacement, `DstA` index out of range, widths index out of range). -/
def decodeCode (nfkc : List Nat → List Nat) (m : CMap) (text : List Nat) :
    Option (List Nat × ℚ) :=
  let n := text.length
  let code := beval text
  match m.BFChars.find? (fun bf => decide (bf.orig.length = n) && decide (bf.orig = text)) with
  | some bf =>
    match UTF16Decode nfkc bf.repl, m.Widths.CodeWidth code with
    | some r, some w => some (r, w)
    | _, _ => none
  | none =>
    match m.BFRanges.find? (fun bf =>
        decide (bf.lo.length = n) && strLE bf.lo text && strLE text bf.hi) with
    | some bf =>
      if bf.dstS ≠ [] then
        let sres := if bf.lo = text then bf.dstS
          else bumpLast bf.dstS (byteSub (text.getLastD 0) (bf.lo.getLastD 0))
        match UTF16Decode nfkc sres, m.Widths.CodeWidth code with
        | some r, some w => some (r, w)
        | _, _ => none
      else if bf.dstA ≠ [] then
        match bf.dstA.get? (byteSub (text.getLastD 0) (bf.lo.getLastD 0)) with
        | none => none
        | some sres =>
          match UTF16Decode nfkc sres, m.Widths.CodeWidth code with
          | some r, some w => some (r, w)
          | _, _ => none
      else
        some ([NoRune], 0)
    | none => some ([NoRune], 0)

/-- Go `CMap.Decode` (src/unnamed/part_006 lines 32-87): repeatedly match
a codespace length, look the consumed code up (bfchar first, then
bfrange), and append the decoded runes, accumulating widths; with no
matching codespace emit `NoRune` and skip one byte. -/
def CMap.Decode (nfkc : List Nat → List Nat) (m : CMap) (raw : List Nat) :
    Option (List Nat × ℚ) :=
  match raw with
  | [] => some ([], 0)
  | b :: rest =>
    match hsp : findSpaceLen m (b :: rest) with
    | some n =>
      match decodeCode nfkc m ((b :: rest).take n) with
      | none => none
      | some contrib =>
        match CMap.Decode nfkc m ((b :: rest).drop n) with
        | none => none
        | some (t, w) => some (contrib.1 ++ t, contrib.2 + w)
    | none =>
      match CMap.Decode nfkc m rest with
      | none => none
      | some (t, w) => some (NoRune :: t, w)
  termination_by raw.length
  decreasing_by
  · have hb := findSpaceLen_bounds _ _ _ hsp
    simp only [List.length_drop, List.length_cons]
    simp only [List.length_cons] at hb
    omega
  · simp +arith [List.length_cons]

/-! ## Decrypter construction (src/internal/decrypter/crypt.go)

The external cryptographic primitives (Go `crypto/md5`, `crypto/rc4`,
`crypto/aes`, `crypto/sha256`, ...) are parameters of the model, bundled
in `CryptoPrims`; `hashR6` (Algorithm 2.B) is also taken as a parameter
because its iteration count is driven by the cryptographic values
themselves and only its comparison result matters to the claims.  The
error-classification control flow of `New`/`newR6` is modelled exactly. -/

/-- The dynamically typed values (`any`) a Go `types.Dict` holds here. -/
inductive GoVal where
  | vint (i : Int)
  | vstr (s : List Nat)
  | vname (n : String)
  | vdict (d : List (String × GoVal))

/-- Go `types.Dict`: a map from names to values (an association list;
the first binding wins, mirroring unique map keys). -/
def GoDict := List (String × GoVal)

/-- Map lookup; a missing key is Go's nil interface value (`none`). -/
def dictGet (d : GoDict) (k : String) : Option GoVal :=
  (List.find? (fun p => p.1 == k) d).map Prod.snd

/-- Go `x, _ := encrypt[k].(int64)`: the value when present and an
integer, else the zero value 0. -/
def getInt (d : GoDict) (k : String) : Int :=
  match dictGet d k with
  | some (.vint i) => i
  | _ => 0

/-- Go `x, _ := encrypt[k].(string)`: the value when present and a
string, else the zero value "". -/
def getStr (d : GoDict) (k : String) : List Nat :=
  match dictGet d k with
  | some (.vstr s) => s
  | _ => []

/-- The distinct failures of `New`/`newR6`, one per `return nil, err`
site; `panicked` stands for a Go runtime panic (failed hard type
assertion, out-of-range slice). -/
inductive CryptErr where
  | invalidPassword
  | badKeyLength
  | unsupportedVersion
  | badRevision
  | missingOU
  | badRC4Key
  | badR6U
  | cantDetermineUserKey
  | badAESKey
  | permsInvalid
  | panicked
deriving DecidableEq, Repr

/-- Go `Decrypter`: the derived file key and the version. -/
structure Decrypter where
  key : List Nat
  v : Int
deriving DecidableEq, Repr

/-- The external crypto primitives used by `New`/`newR6`. -/
structure CryptoPrims where
  md5 : List Nat → List Nat
  rc4 : List Nat → List Nat → List Nat
  hashR6 : List Nat → List Nat → List Nat
  aesCBCdec : List Nat → List Nat → List Nat → List Nat
  aesECBdec : List Nat → List Nat → List Nat

/-- Go `passwordPad` (src/internal/decrypter/crypt.go): the standard
32-byte password padding. -/
def passwordPad : List Nat :=
  [0x28, 0xBF, 0x4E, 0x5E, 0x4E, 0x75, 0x8A, 0x41, 0x64, 0x00, 0x4E, 0x56, 0xFF, 0xFA,
   0x01, 0x08, 0x2E, 0x2E, 0x00, 0xB6, 0xD0, 0x68, 0x3E, 0x80, 0x2F, 0x0C, 0xA9, 0xFE,
   0x64, 0x53, 0x69, 0x7A]

/-- Go `validateVersion` (src/internal/decrypter/crypt.go): V 1 or 2
passes; V 4 or 5 must carry a consistent CF/StmF/StrF crypt-filter block
with the right CFM and optional Length/AuthEvent; anything else fails.
`none` models the panic of the unchecked assertion
`cf[stmf].(types.Dict)`. -/
def validateVersion (v : Int) (encrypt : GoDict) : Option Bool :=
  if v = 1 ∨ v = 2 then some true
  else if ¬(v = 4 ∨ v = 5) then some false
  else
    match dictGet encrypt "CF" with
    | some (.vdict cf) =>
      match dictGet encrypt "StmF" with
      | some (.vname stmf) =>
        match dictGet encrypt "StrF" with
        | some (.vname strf) =>
          if stmf ≠ strf then some false
          else
            match dictGet cf stmf with
            | some (.vdict cfparam) =>
              if (match dictGet cfparam "AuthEvent" with
                  | none => false
                  | some (.vname s) => decide (s ≠ "DocOpen")
                  | some _ => true) then some false
              else if (match dictGet cfparam "Length" with
                  | none => false
                  | some (.vint l) => decide (l ≠ (if v = 5 then 32 else 16))
                  | some _ => true) then some false
              else if (match dictGet cfparam "CFM" with
                  | some (.vname s) => decide (s ≠ (if v = 5 then "AESV3" else "AESV2"))
                  | _ => true) then some false
              else some true
            | some _ => none
            | none => none
        | _ => some false
      | _ => some false
    | _ => some false

/-- Go slicing `l[:k]`: `none` models the panic when `k > len(l)`. -/
def takeE {α : Type} (l : List α) (k : Nat) : Option (List α) :=
  if k ≤ l.length then some (l.take k) else none

/-- The R ≥ 3 loop `for i in 0..49 { key = MD5(key[:n/8]) }`. -/
def md5Iterate (md5 : List Nat → List Nat) (k8 : Nat) : Nat → List Nat → Option (List Nat)
  | 0, key => some key
  | i + 1, key =>
    match takeE key k8 with
    | none => none
    | some kk => md5Iterate md5 k8 i (md5 kk)

/-- The low four bytes of Go `uint32(p)` in little-endian order
(`byte(P), byte(P>>8), byte(P>>16), byte(P>>24)`). -/
def p32bytes (p : Int) : List Nat :=
  [(p % 4294967296).toNat % 256, (p % 4294967296).toNat / 256 % 256,
   (p % 4294967296).toNat / 65536 % 256, (p % 4294967296).toNat / 16777216 % 256]

/-- The effective key-length parameter of `New`: `Length`, defaulting to
40 when absent or zero. -/
def effLength (encrypt : GoDict) : Int :=
  if getInt encrypt "Length" = 0 then 40 else getInt encrypt "Length"

/-- Go `newR6` (src/internal/decrypter/crypt.go lines 119-153).  A failed
`hashR6` comparison - a wrong password - yields the generic
"can't determine user key" error, NOT the distinguished invalid-password
error. -/
def newR6 (prims : CryptoPrims) (password u ue perms : List Nat) :
    Except CryptErr Decrypter :=
  let password := if password.length > 127 then password.take 127 else password
  if u.length < 48 then .error .badR6U
  else
    let u := u.take 48
    if prims.hashR6 password ((u.drop 32).take 8) ≠ u.take 32 then
      .error .cantDetermineUserKey
    else
      let intermediate := prims.hashR6 password ((u.drop 40).take 8)
      if intermediate.length ≠ 16 ∧ intermediate.length ≠ 24 ∧ intermediate.length ≠ 32 then
        .error .badAESKey
      else if ue.length % 16 ≠ 0 ∨ 32 < ue.length then .error .panicked
      else
        let key := (prims.aesCBCdec intermediate (List.replicate 16 0) ue ++
          List.replicate 32 0).take 32
        if key.length ≠ 16 ∧ key.length ≠ 24 ∧ key.length ≠ 32 then .error .badAESKey
        else if perms.length < 16 then .error .panicked
        else
          let dec := (prims.aesECBdec key (perms.take 16) ++ List.replicate 16 0).take 16
          if (dec.drop 9).take 3 ≠ [97, 100, 98] then .error .permsInvalid
          else .ok { key := key, v := 5 }

/-- The 32-byte password padding step of Go `New`:
`h.Write(pw[:32])` or `h.Write(pw); h.Write(passwordPad[:32-len(pw)])`. -/
def padPassword (password : List Nat) : List Nat :=
  if password.length ≥ 32 then password.take 32
  else password ++ passwordPad.take (32 - password.length)

/-- The tail of Go `New` for R in 2..4 (inline in the source; factored
out here): pad the password, derive the RC4/MD5 key, compute the
validation bytes `w`, and compare against `U` - a mismatch is the
distinguished invalid-password error. -/
def newR23 (prims : CryptoPrims) (password : List Nat) (encrypt : GoDict)
    (id : List Nat) : Except CryptErr Decrypter :=
  let o := getStr encrypt "O"
  let u := getStr encrypt "U"
  let r := getInt encrypt "R"
  let n := effLength encrypt
  let key0 := prims.md5 (padPassword password ++ o ++ p32bytes (getInt encrypt "P") ++ id)
  let keyRes := if r ≥ 3 then
      match md5Iterate prims.md5 (n / 8).toNat 50 key0 with
      | none => none
      | some k => takeE k (n / 8).toNat
    else takeE key0 5
  match keyRes with
  | none => .error .panicked
  | some key =>
    if key.length < 1 ∨ 256 < key.length then .error .badRC4Key
    else
      let w := if r = 2 then prims.rc4 key passwordPad
        else
          (List.range' 1 19).foldl
            (fun wa i => prims.rc4 (key.map fun bb => bb ^^^ i) wa)
            (prims.rc4 key (prims.md5 (passwordPad ++ id)))
      if w.isPrefixOf u then .ok { key := key, v := getInt encrypt "V" }
      else .error .invalidPassword

/-- Go `New` (src/internal/decrypter/crypt.go lines 18-110): structural
checks (key length, version block, revision), then the R=6 or R<6
password validation. -/
def New (prims : CryptoPrims) (password : List Nat) (encrypt : GoDict)
    (id : List Nat) : Except CryptErr Decrypter :=
  if effLength encrypt % 8 ≠ 0 ∨ effLength encrypt < 40 ∨
      (128 < effLength encrypt ∧ effLength encrypt ≠ 256) then .error .badKeyLength
  else match validateVersion (getInt encrypt "V") encrypt with
    | none => .error .panicked
    | some false => .error .unsupportedVersion
    | some true =>
      if getInt encrypt "R" < 2 ∨ getInt encrypt "R" = 5 ∨ 6 < getInt encrypt "R" then
        .error .badRevision
      else if getInt encrypt "R" = 6 then
        match dictGet encrypt "UE", dictGet encrypt "Perms" with
        | some (.vstr ue), some (.vstr perms) =>
          newR6 prims password (getStr encrypt "U") ue perms
        | _, _ => .error .panicked
      else if (getStr encrypt "O").length ≠ 32 ∨ (getStr encrypt "U").length ≠ 32 then
        .error .missingOU
      else
        newR23 prims password encrypt id

/-- "the construction either succeeded or failed with exactly the
distinguished invalid-password error". -/
def onlyInvalidFailure (x : Except CryptErr Decrypter) : Bool :=
  match x with
  | .ok _ => true
  | .error e => decide (e = CryptErr.invalidPassword)

/-- "any failure is something other than the invalid-password error". -/
def neverInvalidFailure (x : Except CryptErr Decrypter) : Bool :=
  match x with
  | .ok _ => true
  | .error e => decide (e ≠ CryptErr.invalidPassword)

/-- The concrete CMap of the claim's example: one one-byte codespace
range 0x00..0xFF and the single bfchar 0x41 -> "A" (as the UTF-16BE
bytes 00 41); widths are `wEx` (0x41 -> 600, 0x42 -> 250, default 100). -/
def exCMap : CMap :=
  { Widths := wEx,
    Space := [[⟨[0x00], [0xFF]⟩], [], [], []],
    BFRanges := [],
    BFChars := [⟨[0x41], [0x00, 0x41]⟩] }

/-- A stand-in for the external NFKC normalization, usable where the
runes involved are plain ASCII (on which NFKC is the identity). -/
def nfkcId : List Nat → List Nat := fun l => l

/-- C4: for all non-rotating matrices M and N (entries [0][1] and [1][0]
zero, with the Matrix type's affine invariant: third column (0,0,1)),
both fast-path `Mul` variants agree with the full 3x3 matrix product, and
the identity matrix is a left and right identity for `Mul`: for the full
product over all matrices, and for the fast-path variants over all
matrices of the affine form. -/
theorem c4_matrix_mul_fast_path (M N : matrix) (hM : M.affine) (hN : N.affine)
    (h1 : M.m01 = 0) (h2 : M.m10 = 0) (h3 : N.m01 = 0) (h4 : N.m10 = 0) :
    M.MulRot N = M.Mul N ∧ M.MulSparse N = M.Mul N ∧
    (∀ P : matrix, matrix.identity.Mul P = P ∧ P.Mul matrix.identity = P) ∧
    (∀ P : matrix, P.affine → matrix.identity.MulRot P = P ∧ P.MulRot matrix.identity = P) ∧
    (∀ P : matrix, matrix.identity.MulSparse P = P ∧ P.MulSparse matrix.identity = P) := by
  obtain ⟨hMa, hMb, hMc⟩ := hM
  obtain ⟨hNa, hNb, hNc⟩ := hN
  refine ⟨?_, ?_, ?_, ?_, ?_⟩
  · simp only [matrix.MulRot, matrix.rotation, matrix.Mul, h1, h2, h3, h4]
    cases M; cases N
    simp_all [matrix.mk.injEq]
    try ring_nf
    try simp_all
  · simp only [matrix.MulSparse, matrix.sparse, matrix.Mul, h1, h2, h3, h4]
    cases M; cases N
    simp_all [matrix.mk.injEq]
    try ring_nf
    try simp_all
  · intro P
    cases P
    constructor <;> (simp [matrix.Mul, matrix.identity, matrix.mk.injEq]; try ring_nf; try simp)
  · intro P hP
    obtain ⟨hPa, hPb, hPc⟩ := hP
    constructor
    · by_cases hrot : P.rotation
      · simp only [matrix.MulRot, matrix.identity, hrot]
        cases P
        simp_all [matrix.mk.injEq]
        try ring_nf
        try simp_all
      · simp only [matrix.MulRot, matrix.identity, matrix.rotation] at hrot ⊢
        cases P
        simp_all [matrix.mk.injEq]
    · by_cases hrot : P.rotation
      · simp only [matrix.MulRot, matrix.identity, hrot]
        cases P
        simp_all [matrix.mk.injEq]
        try ring_nf
        try simp_all
      · simp only [matrix.MulRot, matrix.identity, matrix.rotation] at hrot ⊢
        cases P
        simp_all [matrix.mk.injEq]
  · intro P
    constructor
    · by_cases hsp : P.sparse
      · simp only [matrix.MulSparse, matrix.identity, hsp]
        simp only [matrix.sparse] at hsp
        cases P
        simp_all [matrix.mk.injEq, matrix.sparse, matrix.identity]
      · simp only [matrix.MulSparse, matrix.identity, hsp]
        simp only [Bool.and_eq_true] at *
        cases P
        simp_all [matrix.Mul, matrix.identity, matrix.sparse, matrix.mk.injEq, matrix.MulSparse]
        try ring_nf
        try simp_all
    · by_cases hsp : P.sparse
      · simp only [matrix.MulSparse, matrix.identity, hsp]
        simp only [matrix.sparse] at hsp
        cases P
        simp_all [matrix.mk.injEq, matrix.sparse, matrix.identity]
        try ring_nf
        try simp_all
      · simp only [matrix.MulSparse, matrix.identity, hsp]
        cases P
        simp_all [matrix.Mul, matrix.identity, matrix.sparse, matrix.mk.injEq, matrix.MulSparse]
        try ring_nf
        try simp_all

/-- Every operator of `Op` leaves the saved-state stack unchanged. -/
theorem applyOp_stack {F : Type} (fo : FontOps F) (mexp mlog : ℚ → ℚ) (G G' : Graphics F)
    (op : Op F) (h : applyOp fo mexp mlog G op = some G') : G'.stack = G.stack := by
  cases op <;> simp only [applyOp] at h
  case cm a b c d e f =>
    cases hc : G.gs.ctm <;> simp only [Graphics.CM, hc] at h <;> (cases h; rfl)
  case tc v => cases h; rfl
  case tw v => cases h; rfl
  case tz v => cases h; rfl
  case tl v => cases h; rfl
  case tf font size => cases h; rfl
  case bt => cases h; rfl
  case et => cases h; rfl
  case td tx ty =>
    cases htd : Text.Td tx ty G.gs.text <;> rw [htd] at h
    · simp at h
    · simp only [Option.map_some'] at h; cases h; rfl
  case tD tx ty =>
    cases htd : Text.TD tx ty G.gs.text <;> rw [htd] at h
    · simp at h
    · simp only [Option.map_some'] at h; cases h; rfl
  case tmOp a b c d e f => cases h; rfl
  case tstar =>
    cases hts : Text.Tstar G.gs.text <;> rw [hts] at h
    · simp at h
    · simp only [Option.map_some'] at h; cases h; rfl
  case tj raw =>
    cases htj : Graphics.Tj fo mexp raw G <;> rw [htj] at h
    · simp at h
    · simp only [Option.map_some'] at h
      cases h
      simp only [Graphics.Tj] at htj
      cases htx : Text.Tj fo mexp G.gs.normCtm.ctm raw G.gs.normCtm.text <;> rw [htx] at htj
      · exact absurd htj (by simp)
      · cases htj; rfl
  case tjDisp v =>
    cases htd : Text.TJDisplace mexp v G.gs.text <;> rw [htd] at h
    · simp at h
    · simp only [Option.map_some'] at h; cases h; rfl

/-- A whole operator sequence leaves the saved-state stack unchanged. -/
theorem applyOps_stack {F : Type} (fo : FontOps F) (mexp mlog : ℚ → ℚ)
    (ops : List (Op F)) (G G' : Graphics F)
    (h : applyOps fo mexp mlog ops G = some G') : G'.stack = G.stack := by
  induction ops generalizing G with
  | nil => simp only [applyOps] at h; cases h; rfl
  | cons op rest ih =>
    simp only [applyOps] at h
    cases hop : applyOp fo mexp mlog G op with
    | none => simp [hop] at h
    | some G1 =>
      simp only [hop] at h
      exact (ih G1 h).trans (applyOp_stack fo mexp mlog G G1 op hop)

/-- Witness for C4 at concrete non-rotating affine matrices. -/
theorem c4_matrix_mul_fast_path_witness :
    (matrix.mk 2 0 0 0 3 0 4 5 1).affine ∧ (matrix.mk 7 0 0 0 1 0 9 2 1).affine ∧
    ((matrix.mk 2 0 0 0 3 0 4 5 1).MulRot (matrix.mk 7 0 0 0 1 0 9 2 1) =
      (matrix.mk 2 0 0 0 3 0 4 5 1).Mul (matrix.mk 7 0 0 0 1 0 9 2 1)) ∧
    ((matrix.mk 2 0 0 0 3 0 4 5 1).MulSparse (matrix.mk 7 0 0 0 1 0 9 2 1) =
      (matrix.mk 2 0 0 0 3 0 4 5 1).Mul (matrix.mk 7 0 0 0 1 0 9 2 1)) :=
  ⟨by decide, by decide,
    (c4_matrix_mul_fast_path _ _ (by decide) (by decide) rfl rfl rfl rfl).1,
    (c4_matrix_mul_fast_path _ _ (by decide) (by decide) rfl rfl rfl rfl).2.1⟩

/-- C6: after `Tm a b c d e f` both `tm` and `tlm` equal the matrix
[[a,b,0],[c,d,0],[e,f,1]]; after `Td tx ty`, `tlm` equals
translate(tx,ty) multiplied with the previous `tlm`, and `tm` equals
`tlm` (and nothing else of the text state changes). -/
theorem c6_text_positioning {F : Type} (t : Text F) (a b c d e f tx ty : ℚ)
    (L : matrix) (h : t.tlm = some L) :
    (Text.Tm a b c d e f t).tm = some (matrix.mk a b 0 c d 0 e f 1) ∧
    (Text.Tm a b c d e f t).tlm = some (matrix.mk a b 0 c d 0 e f 1) ∧
    Text.Td tx ty t =
      some { t with tlm := some ((matrix.mk 1 0 0 0 1 0 tx ty 1).Mul L),
                    tm := some ((matrix.mk 1 0 0 0 1 0 tx ty 1).Mul L) } := by
  refine ⟨rfl, rfl, ?_⟩
  simp [Text.Td, h]

/-- Witness for C6 at a concrete state with `tlm` the identity. -/
theorem c6_text_positioning_witness :
    tExM.tlm = some matrix.identity ∧
    Text.Td 3 4 tExM =
      some { tExM with tlm := some ((matrix.mk 1 0 0 0 1 0 3 4 1).Mul matrix.identity),
                       tm := some ((matrix.mk 1 0 0 0 1 0 3 4 1).Mul matrix.identity) } :=
  ⟨rfl, (c6_text_positioning tExM 1 0 0 1 0 0 3 4 matrix.identity rfl).2.2⟩

/-- C8: a glyph show (`Tj`) and a `TJ` numeric displacement update only
the text matrix `tm`, left-multiplying it with translate(tx, 0); the text
line matrix `tlm` and all other text-state fields (tc, tw, tl, tf, tfs,
logTh) are unchanged. -/
theorem c8_glyph_show_frame {F : Type} (fo : FontOps F) (mexp : ℚ → ℚ) (t : Text F)
    (M : matrix) (hm : t.tm = some M) (f : F) (hf : t.tf = some f)
    (v nc nw : ℚ) (ctm : matrix) (raw : List Nat) :
    Text.displace mexp v nc nw t =
      some { t with tm := some ((matrix.mk 1 0 0 0 1 0
        ((v / 1000 * t.tfs + nc * t.tc + nw * t.tw) * mexp t.logTh) 0 1).Mul M) } ∧
    Text.TJDisplace mexp v t =
      some { t with tm := some ((matrix.mk 1 0 0 0 1 0
        ((-v / 1000 * t.tfs + 0 * t.tc + 0 * t.tw) * mexp t.logTh) 0 1).Mul M) } ∧
    (Text.Tj fo mexp (some ctm) raw t).map Prod.fst =
      some { t with tm := some ((matrix.mk 1 0 0 0 1 0
        (((fo.decode f raw).2 / 1000 * t.tfs
          + (((fo.decode f raw).1.filter (fun r => r ≠ ' ')).length : ℚ) * t.tc
          + (((fo.decode f raw).1.filter (fun r => r = ' ')).length : ℚ) * t.tw)
            * mexp t.logTh) 0 1).Mul M) } := by
  refine ⟨by simp [Text.displace, hm], by simp [Text.TJDisplace, Text.displace, hm], ?_⟩
  simp [Text.Tj, Text.textDims, Text.trm, Text.displace, hm, hf]

/-- Witness for C8 at a concrete state showing an empty glyph run. -/
theorem c8_glyph_show_frame_witness :
    tExM.tm = some matrix.identity ∧ tExM.tf = some () ∧
    Text.TJDisplace idQ 5 tExM =
      some { tExM with tm := some ((matrix.mk 1 0 0 0 1 0
        ((-5 / 1000 * tExM.tfs + 0 * tExM.tc + 0 * tExM.tw) * idQ tExM.logTh) 0 1).Mul
          matrix.identity) } :=
  ⟨rfl, rfl,
    (c8_glyph_show_frame foU idQ tExM matrix.identity rfl () rfl 5 0 0
      matrix.identity []).2.1⟩

/-- C9: `q` pushes a copy of the entire graphics state (text state
included) and `Q` pops it: for every graphics state, Push, then any
sequence of cm/text-state operations, then Pop restores the ctm (a nil
ctm normalized to the identity by Push), every text-state field, and the
saved-state stack to their values at the Push. -/
theorem c9_push_pop_round_trip {F : Type} (fo : FontOps F) (mexp mlog : ℚ → ℚ)
    (G : Graphics F) (ops : List (Op F)) (G' : Graphics F)
    (h : applyOps fo mexp mlog ops (Graphics.Push G) = some G') :
    Graphics.Pop G' = some { gs := G.gs.normCtm, stack := G.stack } := by
  have hstack : G'.stack = (Graphics.Push G).stack := applyOps_stack _ _ _ _ _ _ h
  simp only [Graphics.Push] at hstack
  simp [Graphics.Pop, hstack]

/-- Witness for C9: push over a nil ctm, run `BT`, pop. -/
theorem c9_push_pop_round_trip_witness :
    applyOps foU idQ idQ [Op.bt] (Graphics.Push ⟨⟨none, tEx0⟩, []⟩) =
      some { gs := { ctm := some matrix.identity, text := Text.BT tEx0 },
             stack := [{ ctm := some matrix.identity, text := tEx0 }] } ∧
    Graphics.Pop { gs := { ctm := some matrix.identity, text := Text.BT tEx0 },
                   stack := [{ ctm := some matrix.identity, text := tEx0 }] } =
      some { gs := (gState.mk (F := Unit) none tEx0).normCtm, stack := [] } :=
  ⟨rfl, c9_push_pop_round_trip foU idQ idQ ⟨⟨none, tEx0⟩, []⟩ [Op.bt] _ rfl⟩

/-- `hexPair` agrees with shift-and-or on nibble values. -/
theorem hexPair_eq_lor (a b : Nat) (ha : a ≤ 15) (hb : b ≤ 15) :
    hexPair a b = Int.lor (a * 16) b := by
  interval_cases a <;> interval_cases b <;> decide

/-- `Builder.add` always extends the concatenated content by exactly the
added content, whether it merges into the last part or opens a new one. -/
theorem Builder_add_joined (b : Builder) (size : ℚ) (weight : Int) (content : List Char) :
    (Builder.add b size weight content).joined = b.joined ++ content := by
  unfold Builder.add
  cases h : b.text.getLast? with
  | none =>
    have hb : b.text = [] := List.getLast?_eq_none.mp h
    simp [Builder.joined, hb]
  | some lastPiece =>
    obtain ⟨ys, hys⟩ := List.getLast?_eq_some_iff.mp h
    dsimp only
    by_cases hc : (isWhitespaceOnly content ||
        (decide (lastPiece.Size = size) && decide (lastPiece.Weight = weight))) = true
    · rw [if_pos hc]
      simp [Builder.joined, hys, List.dropLast_concat, List.map_append, List.append_assoc]
    · rw [if_neg hc]
      simp [Builder.joined]

/-- `Builder.add` never changes the recorded y-position. -/
theorem Builder_add_y (b : Builder) (size : ℚ) (weight : Int) (content : List Char) :
    (Builder.add b size weight content).y = b.y := by
  unfold Builder.add
  cases h : b.text.getLast? with
  | none => rfl
  | some lastPiece =>
    dsimp only
    by_cases hc : (isWhitespaceOnly content ||
        (decide (lastPiece.Size = size) && decide (lastPiece.Weight = weight))) = true
    · rw [if_pos hc]
    · rw [if_neg hc]

/-- C5: `Render` with nonempty content appends to the accumulated text:
nothing when the builder is still empty (the first call), the paragraph
separator "\n\n" when y > prev_y or y < prev_y - 2h, the line separator
"\n" when y < prev_y, and no separator on the same line; and it records
the new y. -/
theorem c5_builder_separators (b : Builder) (x y w h : ℚ) (font content : List Char)
    (hne : content ≠ []) :
    (Builder.Render b x y w h font content).joined =
      b.joined ++
        (if b.text = [] then []
         else if y > b.y ∨ y < b.y - 2 * h then ['\n', '\n']
         else if y < b.y then ['\n']
         else []) ++ content ∧
    (Builder.Render b x y w h font content).y = y := by
  unfold Builder.Render
  rw [if_neg hne]
  constructor
  · by_cases h0 : b.text = []
    · rw [if_pos h0, if_pos h0]
      rw [Builder_add_joined]
      have : Builder.joined { b with y := y } = b.joined := rfl
      rw [this]
      simp
    · rw [if_neg h0, if_neg h0]
      by_cases h1 : y > b.y ∨ y < b.y - 2 * h
      · rw [if_pos h1, if_pos h1, Builder_add_joined]
        have : Builder.joined { b with y := y } = b.joined := rfl
        rw [this]
        simp
      · rw [if_neg h1, if_neg h1]
        by_cases h2 : y < b.y
        · rw [if_pos h2, if_pos h2, Builder_add_joined]
          have : Builder.joined { b with y := y } = b.joined := rfl
          rw [this]
          simp
        · rw [if_neg h2, if_neg h2, Builder_add_joined]
          have : Builder.joined { b with y := y } = b.joined := rfl
          rw [this]
          simp
  · rw [Builder_add_y]

/-- Witness for C5: a second render one line below prepends "\n". -/
theorem c5_builder_separators_witness :
    (['b'] : List Char) ≠ [] ∧
    (Builder.Render ⟨100, [⟨10, 0, ['a']⟩]⟩ 0 90 10 10 ['F'] ['b']).joined =
      (Builder.mk 100 [⟨10, 0, ['a']⟩]).joined ++
        (if ([⟨10, 0, ['a']⟩] : List Part) = [] then []
         else if (90 : ℚ) > 100 ∨ (90 : ℚ) < 100 - 2 * 10 then ['\n', '\n']
         else if (90 : ℚ) < 100 then ['\n']
         else []) ++ ['b'] :=
  ⟨by decide,
    (c5_builder_separators ⟨100, [⟨10, 0, ['a']⟩]⟩ 0 90 10 10 ['F'] ['b'] (by decide)).1⟩

/-- C7: `CodeWidth` returns `linear[code - first]` when the first span
containing the code has linear widths (and the index is in range), the
span's fixed width when that span's `linear` is empty, and the default
width when no span contains the code. -/
theorem c7_widths_lookup (w : widths) (code : Int) :
    (∀ s v, w.spans.find? (fun s => decide (code ≥ s.first) && decide (code ≤ s.last)) = some s →
      s.linear.get? (code - s.first).toNat = some v →
      w.CodeWidth code = some v) ∧
    (∀ s, w.spans.find? (fun s => decide (code ≥ s.first) && decide (code ≤ s.last)) = some s →
      s.linear = [] →
      w.CodeWidth code = some s.fixed) ∧
    ((∀ s ∈ w.spans, ¬(s.first ≤ code ∧ code ≤ s.last)) →
      w.CodeWidth code = some w.defaultW) := by
  refine ⟨?_, ?_, ?_⟩
  · intro s v hf hg
    have hlt := List.get?_eq_some.mp hg
    obtain ⟨hlt1, -⟩ := hlt
    have hlen : s.linear.length > 0 := Nat.lt_of_le_of_lt (Nat.zero_le _) hlt1
    rw [List.get?_eq_getElem?] at hg
    simp [widths.CodeWidth, hf, hlen, hg]
  · intro s hf he
    simp [widths.CodeWidth, hf, he]
  · intro hns
    have hnone : w.spans.find?
        (fun s => decide (code ≥ s.first) && decide (code ≤ s.last)) = none := by
      rw [List.find?_eq_none]
      intro s hs
      simp only [Bool.and_eq_true, decide_eq_true_eq]
      intro hcon
      exact hns s hs ⟨hcon.1, hcon.2⟩
    simp [widths.CodeWidth, hnone]

/-- Witness for C7: a linear lookup inside the span and a default lookup
outside all spans. -/
theorem c7_widths_lookup_witness :
    wEx.spans.find? (fun s => decide ((65 : Int) ≥ s.first) && decide ((65 : Int) ≤ s.last)) =
      some ⟨65, 66, 0, [600, 250]⟩ ∧
    wEx.CodeWidth 65 = some 600 ∧
    wEx.CodeWidth 100 = some 100 :=
  ⟨by decide,
    (c7_widths_lookup wEx 65).1 ⟨65, 66, 0, [600, 250]⟩ 600 (by decide) (by decide),
    (c7_widths_lookup wEx 100).2.2 (by decide)⟩

/-- C10: `Pop` on the empty interpreter value stack returns the zero
value - a PDF null - and leaves the stack empty; in general the stack
length decreases by one clamped at zero, so it never goes negative. -/
theorem c10_pop_empty_stack :
    (stack.Pop ⟨[]⟩).1 = value.zero ∧
    (stack.Pop ⟨[]⟩).1.IsNull = true ∧
    (stack.Pop ⟨[]⟩).1.Kind = valueKind.nullKind ∧
    (stack.Pop ⟨[]⟩).2 = ⟨[]⟩ ∧
    (∀ s : stack, (stack.Pop s).2.Len = s.Len - 1) := by
  refine ⟨rfl, rfl, rfl, rfl, ?_⟩
  intro s
  unfold stack.Pop
  cases h : s.vals.getLast? with
  | none =>
    have hb : s.vals = [] := List.getLast?_eq_none.mp h
    simp [stack.Len, hb]
  | some v =>
    simp [stack.Len, List.length_dropLast]

/-- Dropping a run of satisfied elements before a non-satisfying head. -/
theorem dropWhile_all_append {a : Type} (p : a → Bool) (ws l : List a)
    (hws : ∀ b ∈ ws, p b) : (ws ++ l).dropWhile p = l.dropWhile p := by
  induction ws with
  | nil => simp
  | cons x t ih =>
    simp only [List.cons_append, List.dropWhile_cons_of_pos (hws x (by simp))]
    exact ih (fun b hb => hws b (by simp [hb]))

/-- `unhex` returns -1 or a nibble. -/
theorem unhex_cases (b : Nat) : unhex b = -1 ∨ (0 ≤ unhex b ∧ unhex b ≤ 15) := by
  unfold unhex
  split_ifs <;> omega

/-- A hex digit is neither PDF whitespace nor the closing `>`. -/
theorem unhex_ne_space_gt (c : Nat) (h : unhex c ≠ -1) : isSpaceB c = false ∧ c ≠ 62 := by
  unfold unhex at h
  unfold isSpaceB
  split_ifs at h with h1 h2 h3
  · refine ⟨by simp; omega, by omega⟩
  · refine ⟨by simp; omega, by omega⟩
  · refine ⟨by simp; omega, by omega⟩
  · exact absurd rfl h

/-- One pair step of `readHexString`: leading whitespace, a first
non-space non-`>` byte, more whitespace, and a second non-space byte
reduce to the pair test on those two bytes. -/
theorem readHexString_step (ws1 ws2 : List Nat) (c c2 : Nat) (rest : List Nat)
    (hws1 : ∀ b ∈ ws1, isSpaceB b) (hws2 : ∀ b ∈ ws2, isSpaceB b)
    (hc1 : isSpaceB c = false) (hcgt : c ≠ 62) (hc2 : isSpaceB c2 = false) :
    readHexString (ws1 ++ c :: (ws2 ++ c2 :: rest)) =
      (if hexPair (unhex c) (unhex c2) < 0 then .error "malformed hex string"
       else match readHexString rest with
         | .error e => .error e
         | .ok (tl, restF) => .ok ((hexPair (unhex c) (unhex c2)).toNat :: tl, restF)) := by
  have hd1 : (ws1 ++ c :: (ws2 ++ c2 :: rest)).dropWhile isSpaceB =
      c :: (ws2 ++ c2 :: rest) := by
    rw [dropWhile_all_append _ _ _ hws1, List.dropWhile_cons_of_neg (by simp [hc1])]
  have hd2 : (ws2 ++ c2 :: rest).dropWhile isSpaceB = c2 :: rest := by
    rw [dropWhile_all_append _ _ _ hws2, List.dropWhile_cons_of_neg (by simp [hc2])]
  rw [readHexString.eq_def]
  split
  · next heq => rw [hd1] at heq; cases heq
  · next cc rr heq =>
    rw [hd1] at heq
    cases heq
    rw [if_neg hcgt]
    split
    · next heq2 => rw [hd2] at heq2; cases heq2
    · next dd ss heq2 =>
      rw [hd2] at heq2
      cases heq2
      rfl

/-- C2 (amended): pairs of hex digits, with whitespace between digits
skipped, each produce the byte `16*hi + lo`; but an odd number of hex
digits makes the lexer fail (the closing `>` is consumed as the second
nibble of a pair and is not a hex digit) - there is no zero-padding - and
a non-hex character in either nibble position also makes it fail. -/
theorem c2_hex_string_lexing :
    (∀ ws1 ws2 (c c2 : Nat) rest,
      (∀ b ∈ ws1, isSpaceB b) → (∀ b ∈ ws2, isSpaceB b) →
      unhex c ≠ -1 → unhex c2 ≠ -1 →
      readHexString (ws1 ++ c :: (ws2 ++ c2 :: rest)) =
        match readHexString rest with
        | .error e => .error e
        | .ok (tl, restF) => .ok ((16 * unhex c + unhex c2).toNat :: tl, restF)) ∧
    (∀ ws1 ws2 (c : Nat) rest,
      (∀ b ∈ ws1, isSpaceB b) → (∀ b ∈ ws2, isSpaceB b) →
      unhex c ≠ -1 →
      readHexString (ws1 ++ c :: (ws2 ++ 62 :: rest)) = .error "malformed hex string") ∧
    (∀ ws1 ws2 (c c2 : Nat) rest,
      (∀ b ∈ ws1, isSpaceB b) → (∀ b ∈ ws2, isSpaceB b) →
      isSpaceB c = false → c ≠ 62 → unhex c = -1 → isSpaceB c2 = false →
      readHexString (ws1 ++ c :: (ws2 ++ c2 :: rest)) = .error "malformed hex string") := by
  refine ⟨?_, ?_, ?_⟩
  · intro ws1 ws2 c c2 rest hws1 hws2 hc hc2
    obtain ⟨hcs, hcg⟩ := unhex_ne_space_gt c hc
    obtain ⟨hc2s, -⟩ := unhex_ne_space_gt c2 hc2
    rw [readHexString_step ws1 ws2 c c2 rest hws1 hws2 hcs hcg hc2s]
    have hx : hexPair (unhex c) (unhex c2) = 16 * unhex c + unhex c2 := by
      unfold hexPair
      rw [if_neg hc2]
    rcases unhex_cases c with h | h
    · exact absurd h hc
    rcases unhex_cases c2 with h2 | h2
    · exact absurd h2 hc2
    rw [hx, if_neg (by omega)]
  · intro ws1 ws2 c rest hws1 hws2 hc
    obtain ⟨hcs, hcg⟩ := unhex_ne_space_gt c hc
    have h62 : isSpaceB 62 = false := by decide
    rw [readHexString_step ws1 ws2 c 62 rest hws1 hws2 hcs hcg h62]
    have hx : hexPair (unhex c) (unhex 62) = -1 := by
      unfold hexPair
      rw [if_pos (by decide)]
    rw [hx, if_pos (by omega)]
  · intro ws1 ws2 c c2 rest hws1 hws2 hcs hcg hc hc2s
    rw [readHexString_step ws1 ws2 c c2 rest hws1 hws2 hcs hcg hc2s]
    have hneg : hexPair (unhex c) (unhex c2) < 0 := by
      unfold hexPair
      rcases unhex_cases c2 with h2 | h2
      · rw [if_pos h2]; omega
      · rw [if_neg (by omega), hc]; omega
    rw [if_pos hneg]

/-- C2 counterexample: the odd-digit hex string `<4>` makes the lexer
fail with "malformed hex string"; it does not produce the zero-padded
byte 0x40 that the claim requires. -/
theorem c2_hex_odd_nibble_counterexample :
    readHexString [52, 62] = .error "malformed hex string" ∧
    readHexString [52, 62] ≠ .ok ([64], []) := by
  have h : readHexString [52, 62] = .error "malformed hex string" := by
    rw [readHexString.eq_def]
    rfl
  exact ⟨h, by rw [h]; intro hcon; cases hcon⟩

/-- Witness for C2: `<41>` lexes to the byte 0x41; `<4>` and `<Z1>`
fail. -/
theorem c2_hex_string_lexing_witness :
    unhex 52 ≠ -1 ∧ unhex 49 ≠ -1 ∧
    readHexString [52, 49, 62] = .ok ([65], []) ∧
    readHexString [52, 62] = .error "malformed hex string" ∧
    readHexString [90, 49, 62] = .error "malformed hex string" := by
  have h62 : readHexString [62] = .ok ([], []) := by
    rw [readHexString.eq_def]
    rfl
  refine ⟨by decide, by decide, ?_, ?_, ?_⟩
  · have h := c2_hex_string_lexing.1 [] [] 52 49 [62] (by simp) (by simp)
      (by decide) (by decide)
    simp only [List.nil_append] at h
    rw [h62] at h
    simpa using h
  · have h := c2_hex_string_lexing.2.1 [] [] 52 [] (by simp) (by simp) (by decide)
    simpa using h
  · have h := c2_hex_string_lexing.2.2 [] [] 90 49 [62] (by simp) (by simp)
      (by decide) (by decide) (by decide) (by decide)
    simpa using h

/-- An in-codespace code matched by no bfchar and no bfrange becomes
`NoRune` with zero width contribution. -/
theorem decodeCode_nomatch (nfkc : List Nat → List Nat) (m : CMap) (text : List Nat)
    (h1 : m.BFChars.find? (fun bf =>
      decide (bf.orig.length = text.length) && decide (bf.orig = text)) = none)
    (h2 : m.BFRanges.find? (fun bf =>
      decide (bf.lo.length = text.length) && strLE bf.lo text && strLE text bf.hi) = none) :
    decodeCode nfkc m text = some ([NoRune], 0) := by
  unfold decodeCode
  dsimp only
  rw [h1, h2]

/-- Unfolding one matched-codespace step of `CMap.Decode`. -/
theorem Decode_cons_step (nfkc : List Nat → List Nat) (m : CMap) (b : Nat)
    (rest : List Nat) (n : Nat) (hfind : findSpaceLen m (b :: rest) = some n) :
    CMap.Decode nfkc m (b :: rest) =
      match decodeCode nfkc m ((b :: rest).take n) with
      | none => none
      | some contrib =>
        match CMap.Decode nfkc m ((b :: rest).drop n) with
        | none => none
        | some (t, w) => some (contrib.1 ++ t, contrib.2 + w) := by
  rw [CMap.Decode.eq_def]
  dsimp only
  split
  · next n2 hsp =>
    rw [hfind] at hsp
    injection hsp with h
    subst h
    rfl
  · next hsp => rw [hfind] at hsp; cases hsp

/-- Evaluation of the claim's example: decoding 0x41 0x42 through
`exCMap` yields "A" then the replacement rune, with width 600 - the
width of 0x41 alone. -/
theorem exDecode_eval (nfkc : List Nat → List Nat) (hnf : nfkc [0x41] = [0x41]) :
    CMap.Decode nfkc exCMap [0x41, 0x42] = some ([0x41, NoRune], 600) := by
  have hs1 : findSpaceLen exCMap [65, 66] = some 1 := by decide
  have hs2 : findSpaceLen exCMap [66] = some 1 := by decide
  have hdc1 : decodeCode nfkc exCMap [65] = some ([65], 600) := by
    unfold decodeCode
    dsimp only
    have hf : exCMap.BFChars.find? (fun bf =>
        decide (bf.orig.length = [65].length) && decide (bf.orig = [65])) =
        some ⟨[65], [0, 65]⟩ := by decide
    rw [hf]
    dsimp only
    have hu : UTF16Decode nfkc [0, 65] = some (nfkc [65]) := rfl
    rw [hu, hnf]
    rfl
  have hdc2 : decodeCode nfkc exCMap [66] = some ([NoRune], 0) :=
    decodeCode_nomatch nfkc exCMap [66] (by decide) (by decide)
  rw [show ([0x41, 0x42] : List Nat) = 65 :: [66] from rfl]
  rw [Decode_cons_step nfkc exCMap 65 [66] 1 hs1]
  rw [show List.take 1 [65, 66] = [65] from rfl]
  rw [show List.drop 1 [65, 66] = [66] from rfl]
  rw [hdc1]
  rw [Decode_cons_step nfkc exCMap 66 [] 1 hs2]
  rw [show List.take 1 [66] = [66] from rfl]
  rw [show List.drop 1 [66] = ([] : List Nat) from rfl]
  rw [hdc2]
  rw [CMap.Decode.eq_def]
  norm_num

/-- C1 (amended): a code matched by a codespace range but mapped by no
bfchar and no bfrange contributes the replacement rune `NoRune` to the
decoded text and NOTHING to the width sum (the no-match path never adds a
width); in particular, for the CMap with the one-byte codespace
0x00..0xFF and the single bfchar 0x41 -> "A", `Decode "\x41\x42"` returns
"A" followed by the replacement rune with width sum `widths.lookup(0x41)`
alone (not `widths.lookup(0x41) + widths.lookup(0x42)`). -/
theorem c1_cmap_decode (nfkc : List Nat → List Nat) (hnf : nfkc [0x41] = [0x41]) :
    (∀ (m : CMap) (raw : List Nat) (n : Nat),
      findSpaceLen m raw = some n →
      m.BFChars.find? (fun bf =>
        decide (bf.orig.length = (raw.take n).length) &&
        decide (bf.orig = raw.take n)) = none →
      m.BFRanges.find? (fun bf =>
        decide (bf.lo.length = (raw.take n).length) &&
        strLE bf.lo (raw.take n) && strLE (raw.take n) bf.hi) = none →
      CMap.Decode nfkc m raw =
        match CMap.Decode nfkc m (raw.drop n) with
        | none => none
        | some (t, w) => some (NoRune :: t, w)) ∧
    CMap.Decode nfkc exCMap [0x41, 0x42] = some ([0x41, NoRune], 600) ∧
    wEx.CodeWidth 0x41 = some 600 := by
  refine ⟨?_, exDecode_eval nfkc hnf, by decide⟩
  intro m raw n hfind hbfc hbfr
  cases raw with
  | nil =>
    have := findSpaceLen_bounds m [] n hfind
    simp only [List.length_nil] at this
    omega
  | cons b rest =>
    rw [Decode_cons_step nfkc m b rest n hfind]
    rw [decodeCode_nomatch nfkc m ((b :: rest).take n) hbfc hbfr]
    cases hD : CMap.Decode nfkc m ((b :: rest).drop n) with
    | none => rfl
    | some tw =>
      obtain ⟨t, w⟩ := tw
      norm_num

/-- Trivial concrete crypto primitives for the C3 counterexample and
witness runs. -/
def primsEx : CryptoPrims :=
  { md5 := fun _ => List.replicate 16 0,
    rc4 := fun _ d => d,
    hashR6 := fun _ _ => List.replicate 32 0,
    aesCBCdec := fun _ _ d => d,
    aesECBdec := fun _ d => d }

/-- A well-formed R=6 encryption dictionary whose `U` does not match the
(wrong, empty) password under `primsEx`. -/
def encryptR6Ex : GoDict :=
  [("V", GoVal.vint 5), ("R", GoVal.vint 6), ("Length", GoVal.vint 256),
   ("O", GoVal.vstr (List.replicate 32 0)),
   ("U", GoVal.vstr (List.replicate 32 1 ++ List.replicate 16 0)),
   ("P", GoVal.vint 0),
   ("UE", GoVal.vstr (List.replicate 32 0)),
   ("Perms", GoVal.vstr (List.replicate 16 0)),
   ("CF", GoVal.vdict [("StdCF",
      GoVal.vdict [("CFM", GoVal.vname "AESV3"), ("Length", GoVal.vint 32)])]),
   ("StmF", GoVal.vname "StdCF"), ("StrF", GoVal.vname "StdCF")]

/-- A well-formed R=3 encryption dictionary whose `U` does not match the
(wrong, empty) password under `primsEx`. -/
def encryptR3Ex : GoDict :=
  [("V", GoVal.vint 2), ("R", GoVal.vint 3), ("Length", GoVal.vint 128),
   ("O", GoVal.vstr (List.replicate 32 0)),
   ("U", GoVal.vstr (List.replicate 32 1)),
   ("P", GoVal.vint 0)]

/-- C1 counterexample: the example decode returns width 600 =
lookup(0x41), not the claimed lookup(0x41) + lookup(0x42) = 850. -/
theorem c1_cmap_decode_counterexample :
    CMap.Decode nfkcId exCMap [0x41, 0x42] = some ([0x41, NoRune], 600) ∧
    wEx.CodeWidth 0x41 = some 600 ∧
    wEx.CodeWidth 0x42 = some 250 ∧
    (600 : ℚ) ≠ 600 + 250 :=
  ⟨exDecode_eval nfkcId rfl, by decide, by decide, by norm_num⟩

/-- Witness for C1 with the ASCII-identity normalization. -/
theorem c1_cmap_decode_witness :
    nfkcId [0x41] = [0x41] ∧
    CMap.Decode nfkcId exCMap [0x41, 0x42] = some ([0x41, NoRune], 600) :=
  ⟨rfl, (c1_cmap_decode nfkcId rfl).2.1⟩

/-- The R ≥ 3 key iteration stays a 16-byte value when the hash always
produces 16 bytes and the slice width fits. -/
theorem md5Iterate_length (md5 : List Nat → List Nat)
    (hm : ∀ x, (md5 x).length = 16) (k8 : Nat) (hk : k8 ≤ 16) :
    ∀ (i : Nat) (key : List Nat), key.length = 16 →
      ∃ k, md5Iterate md5 k8 i key = some k ∧ k.length = 16 := by
  intro i
  induction i with
  | zero => intro key hkey; exact ⟨key, rfl, hkey⟩
  | succ j ih =>
    intro key hkey
    have ht : takeE key k8 = some (key.take k8) := by
      unfold takeE
      rw [if_pos (by omega)]
    unfold md5Iterate
    rw [ht]
    exact ih (md5 (key.take k8)) (hm _)

/-- Past the structural checks, the R 2..4 path can only succeed or fail
with the distinguished invalid-password error. -/
theorem newR23_onlyInvalid (prims : CryptoPrims) (password : List Nat)
    (encrypt : GoDict) (id : List Nat)
    (hmd5 : ∀ x, (prims.md5 x).length = 16)
    (hr : getInt encrypt "R" = 2 ∨ getInt encrypt "R" = 3 ∨ getInt encrypt "R" = 4)
    (hn40 : 40 ≤ effLength encrypt)
    (hnhi : getInt encrypt "R" = 2 ∨ effLength encrypt ≤ 128) :
    onlyInvalidFailure (newR23 prims password encrypt id) = true := by
  unfold newR23
  dsimp only
  have hkeyGen : ∀ key0 : List Nat, key0.length = 16 →
      ∃ key, (if getInt encrypt "R" ≥ 3 then
          match md5Iterate prims.md5 (effLength encrypt / 8).toNat 50 key0 with
          | none => none
          | some k => takeE k (effLength encrypt / 8).toNat
        else takeE key0 5) = some key ∧ 1 ≤ key.length ∧ key.length ≤ 256 := by
    intro key0 h16
    rcases hr with hr2 | hr34
    · rw [if_neg (by omega)]
      refine ⟨key0.take 5, ?_, ?_, ?_⟩
      · unfold takeE
        rw [if_pos (by omega)]
      · simp [h16]
      · simp [h16]
    · rw [if_pos (by omega)]
      have hle128 : effLength encrypt ≤ 128 := by
        rcases hnhi with h | h
        · omega
        · exact h
      have hk8hi : (effLength encrypt / 8).toNat ≤ 16 := by omega
      obtain ⟨k, hk, hk16⟩ := md5Iterate_length prims.md5 hmd5 _ hk8hi 50 key0 h16
      rw [hk]
      refine ⟨k.take (effLength encrypt / 8).toNat, ?_, ?_, ?_⟩
      · dsimp only
        unfold takeE
        rw [if_pos (by omega)]
      · simp [hk16]
        omega
      · simp [hk16]
  obtain ⟨key, hkeyRes, hlo, hhi⟩ := hkeyGen
    (prims.md5 (padPassword password ++ getStr encrypt "O" ++
      p32bytes (getInt encrypt "P") ++ id)) (hmd5 _)
  rw [hkeyRes]
  dsimp only
  rw [if_neg (by omega)]
  split <;> (first | rfl | (split <;> rfl))

/-- The R=6 path never produces the invalid-password error. -/
theorem newR6_neverInvalid (prims : CryptoPrims) (password u ue perms : List Nat) :
    neverInvalidFailure (newR6 prims password u ue perms) = true := by
  unfold newR6
  dsimp only
  split_ifs <;> rfl

/-- C3 (amended): past the structural checks, a wrong password fails the
construction with the distinguished invalid-password error for
R in {2,3,4}; but for R = 6 every failure - a wrong password included -
is some other error ("can't determine user key"), so the caller cannot
distinguish it; and structural problems (bad key length, unsupported V,
bad R) fail with their own fatal errors, none of which is the
invalid-password error. -/
theorem c3_invalid_password_error (prims : CryptoPrims) (password : List Nat)
    (encrypt : GoDict) (id : List Nat) (hmd5 : ∀ x, (prims.md5 x).length = 16) :
    ((effLength encrypt % 8 = 0 ∧ 40 ≤ effLength encrypt ∧
        (effLength encrypt ≤ 128 ∨ effLength encrypt = 256)) →
      validateVersion (getInt encrypt "V") encrypt = some true →
      (getInt encrypt "R" = 2 ∨ getInt encrypt "R" = 3 ∨ getInt encrypt "R" = 4) →
      (getStr encrypt "O").length = 32 → (getStr encrypt "U").length = 32 →
      (getInt encrypt "R" = 2 ∨ effLength encrypt ≤ 128) →
      onlyInvalidFailure (New prims password encrypt id) = true) ∧
    (getInt encrypt "R" = 6 →
      neverInvalidFailure (New prims password encrypt id) = true) ∧
    ((effLength encrypt % 8 ≠ 0 ∨ effLength encrypt < 40 ∨
        (128 < effLength encrypt ∧ effLength encrypt ≠ 256)) →
      New prims password encrypt id = .error CryptErr.badKeyLength) ∧
    ((effLength encrypt % 8 = 0 ∧ 40 ≤ effLength encrypt ∧
        (effLength encrypt ≤ 128 ∨ effLength encrypt = 256)) →
      validateVersion (getInt encrypt "V") encrypt = some false →
      New prims password encrypt id = .error CryptErr.unsupportedVersion) ∧
    ((effLength encrypt % 8 = 0 ∧ 40 ≤ effLength encrypt ∧
        (effLength encrypt ≤ 128 ∨ effLength encrypt = 256)) →
      validateVersion (getInt encrypt "V") encrypt = some true →
      (getInt encrypt "R" < 2 ∨ getInt encrypt "R" = 5 ∨ 6 < getInt encrypt "R") →
      New prims password encrypt id = .error CryptErr.badRevision) ∧
    (CryptErr.cantDetermineUserKey ≠ CryptErr.invalidPassword ∧
     CryptErr.badKeyLength ≠ CryptErr.invalidPassword ∧
     CryptErr.unsupportedVersion ≠ CryptErr.invalidPassword ∧
     CryptErr.badRevision ≠ CryptErr.invalidPassword) := by
  refine ⟨?_, ?_, ?_, ?_, ?_, by decide, by decide, by decide, by decide⟩
  · intro hn hvv hr ho hu hnhi
    unfold New
    rw [if_neg (by omega), hvv]
    dsimp only
    rw [if_neg (by omega), if_neg (by omega), if_neg (by omega)]
    exact newR23_onlyInvalid prims password encrypt id hmd5 hr (by omega) hnhi
  · intro hr6
    unfold New
    by_cases hG : effLength encrypt % 8 ≠ 0 ∨ effLength encrypt < 40 ∨
        (128 < effLength encrypt ∧ effLength encrypt ≠ 256)
    · rw [if_pos hG]
      rfl
    · rw [if_neg hG]
      cases hvv : validateVersion (getInt encrypt "V") encrypt with
      | none => rfl
      | some bv =>
        cases bv with
        | false => rfl
        | true =>
          dsimp only
          rw [if_neg (by omega), if_pos hr6]
          split
          · exact newR6_neverInvalid _ _ _ _ _
          · rfl
  · intro hG
    unfold New
    rw [if_pos hG]
  · intro hn hvv
    unfold New
    rw [if_neg (by omega), hvv]
  · intro hn hvv hr
    unfold New
    rw [if_neg (by omega), hvv]
    dsimp only
    rw [if_pos hr]

/-- C3 counterexample: with the supported revision R=6 and a wrong
password, `New` fails with the generic "can't determine user key" error,
not the distinguished invalid-password error the claim requires for
every supported revision. -/
theorem c3_invalid_password_counterexample :
    New primsEx [] encryptR6Ex [] = .error CryptErr.cantDetermineUserKey ∧
    CryptErr.cantDetermineUserKey ≠ CryptErr.invalidPassword := by
  refine ⟨by rfl, by decide⟩

/-- Witness for C3: the R=3 dictionary with a wrong password fails with
exactly the invalid-password error; the R=6 dictionary never yields it. -/
theorem c3_invalid_password_error_witness :
    onlyInvalidFailure (New primsEx [] encryptR3Ex []) = true ∧
    New primsEx [] encryptR3Ex [] = .error CryptErr.invalidPassword ∧
    neverInvalidFailure (New primsEx [] encryptR6Ex []) = true :=
  ⟨(c3_invalid_password_error primsEx [] encryptR3Ex []
      (fun _ => by simp [primsEx])).1
      (by decide) (by decide) (by decide) (by decide) (by decide) (by decide),
    by rfl,
    (c3_invalid_password_error primsEx [] encryptR6Ex []
      (fun _ => by simp [primsEx])).2.1 (by decide)⟩

end Pdf
